import Mathlib

/-!
Verification of the download-and-deliver pipeline of a Telegram premium-download
bot.  The Python sources (`premium.py`, `db.py`, `bot.py`, `main.py`) are
shallowly embedded: byte streams are lists of naturals below 256, the
`hashlib.sha256` accumulator is modelled by the list of bytes fed to it
together with a concrete executable SHA-256, the Mongo files collection is a
list of documents, and the chunk-reading loop of
`download_file_from_premium_to` is an explicit fold over the chunk list
returning `Option` (`none` = an uncaught Python exception aborted the
transfer).  Python's `int((downloaded / total) * 100)` is modelled by exact
natural floor division `downloaded * 100 / total`.
-/

set_option autoImplicit false

namespace PremiumBot

/-! ### Byte streams and chunking -/

/-- Helper for `chunksOf`: `chunksAux n xs i` returns the next `i` elements of
`xs` together with the remaining elements split into pieces of `n`.  Written
with structural recursion so that it reduces inside the kernel. -/
def chunksAux (n : Nat) : List Nat → Nat → List Nat × List (List Nat)
  | [], _ => ([], [])
  | x :: xs, 0 =>
    let p := chunksAux n xs (n - 1)
    ([], (x :: p.1) :: p.2)
  | x :: xs, i + 1 =>
    let p := chunksAux n xs i
    (x :: p.1, p.2)

/-- Splits a list into consecutive pieces of `n` elements, the last piece
possibly shorter; models `response.content.iter_chunked(n)` (premium.py 149,
151), and is reused for the 64-byte block split of SHA-256.  Every produced
piece is nonempty. -/
def chunksOf (n : Nat) (l : List Nat) : List (List Nat) :=
  match l with
  | [] => []
  | x :: xs =>
    let p := chunksAux n xs (n - 1)
    (x :: p.1) :: p.2

/-! ### SHA-256 (the `hashlib.sha256` collaborator)

A concrete, executable SHA-256 over byte lists.  The incremental
`hash.update(chunk)` API of `hashlib` is modelled by accumulating the list of
bytes fed so far; `hexdigest()` is `sha256Hex` of the accumulated list. -/

/-- Truncation to a 32-bit word. -/
def w32 (x : Nat) : Nat := x % 4294967296

/-- 32-bit right rotation (argument assumed below `2 ^ 32`). -/
def rotr32 (n x : Nat) : Nat := w32 ((x >>> n) ||| (x <<< (32 - n)))

def ch32 (x y z : Nat) : Nat := (x &&& y) ^^^ ((4294967295 ^^^ x) &&& z)

def maj32 (x y z : Nat) : Nat := (x &&& y) ^^^ (x &&& z) ^^^ (y &&& z)

def bigSigma0 (x : Nat) : Nat := rotr32 2 x ^^^ rotr32 13 x ^^^ rotr32 22 x

def bigSigma1 (x : Nat) : Nat := rotr32 6 x ^^^ rotr32 11 x ^^^ rotr32 25 x

def smallSigma0 (x : Nat) : Nat := rotr32 7 x ^^^ rotr32 18 x ^^^ (x >>> 3)

def smallSigma1 (x : Nat) : Nat := rotr32 17 x ^^^ rotr32 19 x ^^^ (x >>> 10)

/-- The 64 SHA-256 round constants. -/
def sha256K : List Nat :=
  [1116352408, 1899447441, 3049323471, 3921009573, 961987163, 1508970993,
   2453635748, 2870763221, 3624381080, 310598401, 607225278, 1426881987,
   1925078388, 2162078206, 2614888103, 3248222580, 3835390401, 4022224774,
   264347078, 604807628, 770255983, 1249150122, 1555081692, 1996064986,
   2554220882, 2821834349, 2952996808, 3210313671, 3336571891, 3584528711,
   113926993, 338241895, 666307205, 773529912, 1294757372, 1396182291,
   1695183700, 1986661051, 2177026350, 2456956037, 2730485921, 2820302411,
   3259730800, 3345764771, 3516065817, 3600352804, 4094571909, 275423344,
   430227734, 506948616, 659060556, 883997877, 958139571, 1322822218,
   1537002063, 1747873779, 1955562222, 2024104815, 2227730452, 2361852424,
   2428436474, 2756734187, 3204031479, 3329325298]

/-- The SHA-256 initial hash value. -/
def sha256H0 : List Nat :=
  [1779033703, 3144134277, 1013904242, 2773480762,
   1359893119, 2600822924, 528734635, 1541459225]

/-- SHA-256 padding: append `0x80`, zeros, and the 64-bit big-endian bit length. -/
def sha256Pad (msg : List Nat) : List Nat :=
  let len := msg.length
  let bitLen := len * 8
  let zeros := (119 - len % 64) % 64
  msg ++ [128] ++ List.replicate zeros 0 ++
    (List.range 8).map (fun i => (bitLen >>> (8 * (7 - i))) % 256)

/-- Big-endian 32-bit words of a 64-byte block. -/
def wordsOfBlock (b : List Nat) : List Nat :=
  (chunksOf 4 b).map (fun w => w.foldl (fun a x => a * 256 + x) 0)

/-- The 64-entry SHA-256 message schedule extending the 16 block words. -/
def sha256Schedule (w16 : List Nat) : List Nat :=
  ((List.range 48).foldl
    (fun arr t =>
      let i := t + 16
      arr.push (w32 (smallSigma1 (arr.getD (i - 2) 0) + arr.getD (i - 7) 0 +
        smallSigma0 (arr.getD (i - 15) 0) + arr.getD (i - 16) 0)))
    w16.toArray).toList

/-- The SHA-256 compression function for one 64-byte block. -/
def sha256Compress (h : List Nat) (block : List Nat) : List Nat :=
  let ws := sha256Schedule (wordsOfBlock block)
  let final := (List.range 64).foldl
    (fun st t =>
      let a := st.getD 0 0
      let b := st.getD 1 0
      let c := st.getD 2 0
      let d := st.getD 3 0
      let e := st.getD 4 0
      let f := st.getD 5 0
      let g := st.getD 6 0
      let hh := st.getD 7 0
      let t1 := w32 (hh + bigSigma1 e + ch32 e f g + sha256K.getD t 0 + ws.getD t 0)
      let t2 := w32 (bigSigma0 a + maj32 a b c)
      [w32 (t1 + t2), a, b, c, w32 (d + t1), e, f, g])
    h
  List.zipWith (fun x y => w32 (x + y)) h final

/-- SHA-256 digest of a byte list, as 32 bytes. -/
def sha256Bytes (msg : List Nat) : List Nat :=
  let hs := (chunksOf 64 (sha256Pad msg)).foldl sha256Compress sha256H0
  (hs.map (fun w => [(w >>> 24) % 256, (w >>> 16) % 256, (w >>> 8) % 256, w % 256])).flatten

def hexDigitChar (n : Nat) : Char := if n < 10 then Char.ofNat (48 + n) else Char.ofNat (87 + n)

/-- Hex encoding of the digest: models `hashlib`'s `hexdigest()` (premium.py 182). -/
def sha256Hex (msg : List Nat) : String :=
  String.mk (((sha256Bytes msg).map (fun b => [hexDigitChar (b / 16), hexDigitChar (b % 16)])).flatten)

/-! ### The chunk-reading loop of `download_file_from_premium_to` (premium.py 146-184)

Each non-empty chunk is written to the temporary file, fed to the hash
accumulator, and drives the progress reporter.  The outcome of each
`edit_message_text` call is supplied by an oracle indexed by the number of
edit attempts made so far. -/

/-- Outcome of one `context.bot.edit_message_text` call, classified the way the
loop's `except` clauses classify it (premium.py 165-173). -/
inductive EditOutcome where
  /-- The edit succeeded. -/
  | success
  /-- `BadRequest` whose text contains "Message is not modified". -/
  | notModified
  /-- `BadRequest` whose text contains "Message can't be edited". -/
  | notEditable
  /-- Any other `BadRequest`. -/
  | otherBadRequest
  /-- Any other exception. -/
  | otherError
deriving DecidableEq, Repr

/-- State of the streaming loop: the bytes written to `tempfile`, the bytes fed
to the `hashlib.sha256` accumulator, `downloaded_size`, `last_progress_update`,
the number of edit attempts performed (oracle cursor), the percent values of
the successful "Downloading: p%" edits in order, and the number of successful
"Download complete!" edits. -/
structure LoopState where
  fileBytes : List Nat := []
  hashedBytes : List Nat := []
  downloadedSize : Nat := 0
  lastProgressUpdate : Nat := 0
  editAttempts : Nat := 0
  reports : List Nat := []
  completeEdits : Nat := 0
deriving DecidableEq, Repr

/-- `progress = int((downloaded_size / total_size) * 100) if total_size > 0 else 0`
(premium.py 156), with the float computation modelled as exact floor division. -/
def progressOf (downloaded total : Nat) : Nat :=
  if 0 < total then downloaded * 100 / total else 0

/-- One iteration of `async for chunk in response.content.iter_chunked(4096)`
(premium.py 151-179).  An empty chunk is skipped (`if chunk:`).  A failed
"Downloading" edit is caught and logged, and `last_progress_update` is not
advanced; a failed "Download complete!" edit is not guarded by any `try`, so
the exception escapes the loop (`none`). -/
def processChunk (oracle : Nat → EditOutcome) (total : Nat) (s : LoopState)
    (chunk : List Nat) : Option LoopState :=
  if chunk.isEmpty then some s
  else
    let downloaded := s.downloadedSize + chunk.length
    let progress := progressOf downloaded total
    let s1 : LoopState :=
      { s with
        fileBytes := s.fileBytes ++ chunk
        hashedBytes := s.hashedBytes ++ chunk
        downloadedSize := downloaded }
    if s.lastProgressUpdate + 5 ≤ progress ∧ progress < 100 then
      match oracle s.editAttempts with
      | .success => some { s1 with
          lastProgressUpdate := progress
          editAttempts := s.editAttempts + 1
          reports := s.reports ++ [progress] }
      | _ => some { s1 with editAttempts := s.editAttempts + 1 }
    else if progress = 100 then
      match oracle s.editAttempts with
      | .success => some { s1 with
          editAttempts := s.editAttempts + 1
          completeEdits := s.completeEdits + 1 }
      | _ => none
    else some s1

/-- The whole chunk loop over a list of chunks, aborting on an escaped
exception. -/
def runLoop (oracle : Nat → EditOutcome) (total : Nat) (chunks : List (List Nat)) :
    Option LoopState :=
  chunks.foldlM (processChunk oracle total) {}

/-- `total_size = int(response.headers.get('Content-Length', 0))`
(premium.py 125): the declared size is the header value, `0` when absent. -/
def totalSizeOf (contentLength : Option Nat) : Nat := contentLength.getD 0

/-- Result of finalizing a completed stream (premium.py 181-187): the hex
digest keys both the on-disk name and the `StoredFile` record. -/
structure Finalized where
  storedKey : String
  fileName : String
  content : List Nat
  reports : List Nat
  completeEdits : Nat
deriving DecidableEq, Repr

/-- Streaming plus finalization: run the 4096-byte chunk loop over the body,
then `file_hash.hexdigest()` and `os.rename(tempfile, user_dir / hash)`
(premium.py 146-184). -/
def streamAndFinalize (oracle : Nat → EditOutcome) (contentLength : Option Nat)
    (body : List Nat) : Option Finalized :=
  (runLoop oracle (totalSizeOf contentLength) (chunksOf 4096 body)).map fun s =>
    let key := sha256Hex s.hashedBytes
    { storedKey := key
      fileName := key
      content := s.fileBytes
      reports := s.reports
      completeEdits := s.completeEdits }

/-! ### Delivery-mode decision (premium.py 209-264) -/

/-- `50 * 1024 * 1024` (premium.py 210). -/
def FILE_SIZE_THRESHOLD : Nat := 50 * 1024 * 1024

/-- How a completed download is handed to the requester. -/
inductive DeliveryResult where
  /-- `send_document` path (premium.py 210-245). -/
  | inlineSent
  /-- Hosted link path (premium.py 247-259). -/
  | linkSent (url : String)
  /-- `FILE_HOST_BASE_URL` not configured (premium.py 260-264): the transfer
  fails. -/
  | failed
deriving DecidableEq, Repr

/-- The delivery branch `if total_size < 50 * 1024 * 1024` (premium.py 209-264):
the comparison is on the Content-Length-declared `total_size`, and the hosted
URL is `f"{file_host_base_url}/download/{file_hash_str}"`. -/
def deliverFile (total_size : Nat) (baseUrl : Option String) (hash : String) :
    DeliveryResult :=
  if total_size < FILE_SIZE_THRESHOLD then .inlineSent
  else
    match baseUrl with
    | some b => .linkSent (b ++ "/download/" ++ hash)
    | none => .failed

/-! ### The files collection (db.py 61-98)

The Mongo collection is modelled as a list of documents; `insert_one` appends
and `find_one` returns the first match. -/

/-- One document of the files collection (db.py 68-73). -/
structure FileRecord where
  file_hash : String
  file_path : String
  original_filename : String
  thumbnail_path : Option String
deriving DecidableEq, Repr

/-- `add_file_info` (db.py 61-79): builds the document with
`thumbnail_path = None` and unconditionally calls `insert_one`. -/
def add_file_info (file_hash file_path original_filename : String)
    (db : List FileRecord) : List FileRecord :=
  db ++ [{ file_hash := file_hash
           file_path := file_path
           original_filename := original_filename
           thumbnail_path := none }]

/-- `get_file_info_by_hash` (db.py 81-98): `find_one({"file_hash": h})`. -/
def get_file_info_by_hash (h : String) (db : List FileRecord) : Option FileRecord :=
  db.find? (fun r => r.file_hash = h)

/-! ### Broker error-code mapping (premium.py 280-289) -/

/-- The `error_messages` dict (premium.py 280-288). -/
def error_messages (code : Int) : Option String :=
  if code = 400 then some "Invalid parameters"
  else if code = 401 then some "Invalid API authentication"
  else if code = 402 then some "Filehost is not supported"
  else if code = 403 then some "Not enough traffic"
  else if code = 404 then some "File not found"
  else if code = 429 then some "Too many open connections"
  else if code = 500 then some "Currently no available premium account for this filehost"
  else none

/-- `error_messages.get(error_code, f"Unknown error (code {error_code})")`
(premium.py 289). -/
def apiErrorMessage (code : Int) : String :=
  (error_messages code).getD ("Unknown error (code " ++ toString code ++ ")")

/-! ### Thumbnail side-path (premium.py 39-90 and 189-207) -/

/-- The environment a thumbnail attempt runs in: whether
`ffmpeg.probe(video_path)['format']['duration']` is present, and whether the
ffmpeg subprocess exits zero. -/
structure ThumbCond where
  durationPresent : Bool
  subprocessOk : Bool
deriving DecidableEq, Repr

/-- Python exceptions relevant to the thumbnail path. -/
inductive PyExc where
  /-- `probe['format']['duration']` on a probe without duration metadata. -/
  | keyError
deriving DecidableEq, Repr

/-- `create_video_thumbnail_sheet` (premium.py 39-90).  Its `try` catches only
`ffmpeg.Error`: a non-zero subprocess exit is caught and logged and the
function returns normally (the returned Bool records whether the sheet file
was actually produced), while a missing duration raises `KeyError`, which the
handler does not match, so it escapes. -/
def create_video_thumbnail_sheet (c : ThumbCond) : Except PyExc Bool :=
  if c.durationPresent then .ok c.subprocessOk
  else .error .keyError

/-- Observable outcome of the thumbnail call site (premium.py 200-205). -/
structure ThumbSiteResult where
  /-- `update_file_thumbnail` was called, setting the record's `thumbnail_path`. -/
  thumbnailSet : Bool
  /-- The orchestrator proceeds to the delivery branch (premium.py 209). -/
  delivered : Bool
  /-- A sheet file actually exists at the thumbnail path. -/
  sheetCreated : Bool
deriving DecidableEq, Repr

/-- The call site (premium.py 200-205): `create_video_thumbnail_sheet` then
`update_file_thumbnail`, both inside `try ... except Exception`, after which
control always reaches the delivery branch. -/
def thumbnailSidePath (c : ThumbCond) : ThumbSiteResult :=
  match create_video_thumbnail_sheet c with
  | .ok created => { thumbnailSet := true, delivered := true, sheetCreated := created }
  | .error _ => { thumbnailSet := false, delivered := true, sheetCreated := false }

/-! ### Filename extraction (premium.py 131-144) -/

/-- The suffix of `s` after the first occurrence of `marker`, if `marker`
occurs in `s` (for nonempty `marker`). -/
def suffixAfterFirst (marker : List Char) : List Char → Option (List Char)
  | [] => none
  | c :: cs =>
    if marker.isPrefixOf (c :: cs) then some ((c :: cs).drop marker.length)
    else suffixAfterFirst marker cs

/-- `os.path.basename`: the part after the last slash. -/
def urlBasenameChars (url : List Char) : List Char :=
  (url.reverse.takeWhile (fun c => c ≠ '/')).reverse

/-- `re.search(r"filename\*=UTF-8''(.+)", content_disposition)` followed by the
fallback to `os.path.basename(url)` (premium.py 132-138).  The greedy `.+`
requires at least one character after the marker and captures everything up to
the end of the header. -/
def extractFileName (content_disposition : String) (url : String) : String :=
  match suffixAfterFirst ("filename*=UTF-8''").data content_disposition.data with
  | some rest => if rest.isEmpty then String.mk (urlBasenameChars url.data) else String.mk rest
  | none => String.mk (urlBasenameChars url.data)

/-- `str.encode('latin1')` succeeds exactly when every code point is below 256,
in which case the bytes are the code points themselves. -/
def latin1EncodeOk (cps : List Nat) : Bool := cps.all (fun c => c < 256)

/-- Strict UTF-8 decoding of a byte list into code points, rejecting stray or
missing continuation bytes, overlong forms, surrogates, and values above
`0x10FFFF`, as Python's `bytes.decode('utf-8')` does. -/
def utf8Decode : List Nat → Option (List Nat)
  | [] => some []
  | b :: rest =>
    if b < 128 then (utf8Decode rest).map (fun l => b :: l)
    else if b < 194 then none
    else if b < 224 then
      match rest with
      | b1 :: rest' =>
        if 128 ≤ b1 ∧ b1 < 192 then
          (utf8Decode rest').map (fun l => ((b - 192) * 64 + (b1 - 128)) :: l)
        else none
      | [] => none
    else if b < 240 then
      match rest with
      | b1 :: b2 :: rest' =>
        let lo1 := if b = 224 then 160 else 128
        let hi1 := if b = 237 then 160 else 192
        if lo1 ≤ b1 ∧ b1 < hi1 ∧ 128 ≤ b2 ∧ b2 < 192 then
          (utf8Decode rest').map
            (fun l => ((b - 224) * 4096 + (b1 - 128) * 64 + (b2 - 128)) :: l)
        else none
      | _ => none
    else if b < 245 then
      match rest with
      | b1 :: b2 :: b3 :: rest' =>
        let lo1 := if b = 240 then 144 else 128
        let hi1 := if b = 244 then 144 else 192
        if lo1 ≤ b1 ∧ b1 < hi1 ∧ 128 ≤ b2 ∧ b2 < 192 ∧ 128 ≤ b3 ∧ b3 < 192 then
          (utf8Decode rest').map
            (fun l => ((b - 240) * 262144 + (b1 - 128) * 4096 + (b2 - 128) * 64 + (b3 - 128)) :: l)
        else none
      | _ => none
    else none

/-- `file_name.encode('latin1').decode('utf-8')` under
`try ... except UnicodeEncodeError` (premium.py 141-144), over code points.
A `UnicodeEncodeError` (some code point above 255) is caught and the name kept
as-is; a `UnicodeDecodeError` from `.decode('utf-8')` is not matched by the
handler and escapes (`.error ()`), failing the transfer. -/
def fixFileName (cps : List Nat) : Except Unit (List Nat) :=
  if latin1EncodeOk cps then
    match utf8Decode cps with
    | some decoded => .ok decoded
    | none => .error ()
  else .ok cps

/-- Code points of a Lean string, for feeding `fixFileName`. -/
def codePoints (s : String) : List Nat := s.data.map Char.toNat

/-- The whole filename step of the download branch: extract, then re-decode;
an escaped `UnicodeDecodeError` aborts the branch (caught only by the blanket
handler at premium.py 266, which replies with an error and returns `None`). -/
def fileNameStep (content_disposition : String) (url : String) :
    Except Unit (List Nat) :=
  fixFileName (codePoints (extractFileName content_disposition url))

/-! ### Hosted URL versus the serving route (premium.py 251, main.py 175-183) -/

/-- Path part of the composed hosted URL
`f"{file_host_base_url}/download/{file_hash_str}"` (premium.py 251). -/
def composedHostedUrlPath (hash : String) : String := "/download/" ++ hash

/-- Splitting a character list at every slash, like splitting a path into its
segments. -/
def splitOnSlash : List Char → List (List Char)
  | [] => [[]]
  | c :: cs =>
    let r := splitOnSlash cs
    if c = '/' then [] :: r
    else
      match r with
      | [] => [[c]]
      | s :: ss => (c :: s) :: ss

/-- The FastAPI route `@app.get("/download/{user_id}/{file_name}")`
(main.py 175): it matches exactly the paths with two nonempty segments after
`download`, binding `user_id` and `file_name`. -/
def routeMatch (path : String) : Option (String × String) :=
  match (splitOnSlash path.data).filter (fun s => s ≠ []) with
  | [d, uid, fname] =>
    if d = ("download").data then some (String.mk uid, String.mk fname) else none
  | _ => none

/-- `os.path.join(os.getenv("DOWNLOAD_DIR"), user_id, file_name)` (main.py 178). -/
def servedFilePath (root uid fname : String) : String :=
  root ++ "/" ++ uid ++ "/" ++ fname

/-- `Path(download_dir) / str(user_id) / file_hash_str` (premium.py 128, 183):
where the finalized file actually lives. -/
def finalizedFilePath (root : String) (user_id : Nat) (hash : String) : String :=
  root ++ "/" ++ toString user_id ++ "/" ++ hash

/-! ### Module well-formedness of the `handle_message` call (bot.py 10, 412-415;
premium.py 92) -/

/-- The top-level names `premium.py` defines. -/
def premiumModuleNames : List String :=
  ["guess_mime_type_from_header", "create_video_thumbnail_sheet",
   "download_file_from_premium_to"]

/-- The names `bot.py` line 10 imports from `premium`. -/
def botImportsFromPremium : List String :=
  ["download_file_from_premium_to", "create_video_thumbnail_sheet_async"]

/-- Parameters of `download_file_from_premium_to` (premium.py 92): `url,
user_id, api_key, user_premium_id, download_dir, update, context`. -/
def downloadFnParamCount : Nat := 7

/-- Positional arguments at the `handle_message` call site (bot.py 413-415):
`message_text, user_id, API_KEY, USER_ID, DOWNLOAD_DIR, update, context,
processing_message`. -/
def handleMessageCallArgCount : Nat := 8

/-- Invariant of the progress reporter's state: the successful report percents
(prefixed by the initial `last_progress_update = 0`) rise by at least 5 at each
step, the most recent of them is the current `last_progress_update`, and every
reported percent is below 100. -/
def ReportInv (s : LoopState) : Prop :=
  List.Chain' (fun a b => a + 5 ≤ b) (0 :: s.reports)
  ∧ (0 :: s.reports).getLast? = some s.lastProgressUpdate
  ∧ ∀ p ∈ s.reports, p < 100

/-! ## Theorems -/

/-! ### Chunking lemmas -/

theorem chunksAux_flatten (n : Nat) :
    ∀ (xs : List Nat) (i : Nat),
      (chunksAux n xs i).1 ++ ((chunksAux n xs i).2).flatten = xs := by
  intro xs
  induction xs with
  | nil => intro i; simp [chunksAux]
  | cons x xs ih =>
    intro i
    cases i with
    | zero => simp [chunksAux, ih (n - 1)]
    | succ j => simp [chunksAux, ih j]

theorem flatten_chunksOf (n : Nat) (l : List Nat) : (chunksOf n l).flatten = l := by
  cases l with
  | nil => rfl
  | cons x xs => simp [chunksOf, chunksAux_flatten n xs (n - 1)]

theorem chunksAux_shape (n : Nat) (hn : 0 < n) :
    ∀ (xs : List Nat) (i : Nat),
      (chunksAux n xs i).1.length ≤ i
      ∧ ∀ c ∈ (chunksAux n xs i).2, c.length ≤ n ∧ c ≠ [] := by
  intro xs
  induction xs with
  | nil => intro i; simp [chunksAux]
  | cons x xs ih =>
    intro i
    cases i with
    | zero =>
      refine ⟨by simp [chunksAux], ?_⟩
      intro c hc
      simp only [chunksAux, List.mem_cons] at hc
      rcases hc with rfl | hc
      · have := (ih (n - 1)).1
        simp only [List.length_cons]
        constructor
        · omega
        · simp
      · exact (ih (n - 1)).2 c hc
    | succ j =>
      refine ⟨?_, ?_⟩
      · simp only [chunksAux, List.length_cons]
        have := (ih j).1
        omega
      · intro c hc
        simp only [chunksAux] at hc
        exact (ih j).2 c hc

theorem length_le_of_mem_chunksOf {n : Nat} (hn : 0 < n) {l c : List Nat}
    (hc : c ∈ chunksOf n l) : c.length ≤ n := by
  cases l with
  | nil => simp [chunksOf] at hc
  | cons x xs =>
    simp only [chunksOf, List.mem_cons] at hc
    rcases hc with rfl | hc
    · have := (chunksAux_shape n hn xs (n - 1)).1
      simp only [List.length_cons]
      omega
    · exact ((chunksAux_shape n hn xs (n - 1)).2 c hc).1

theorem chunksAux_ne_nil (n : Nat) :
    ∀ (xs : List Nat) (i : Nat), ∀ c ∈ (chunksAux n xs i).2, c ≠ [] := by
  intro xs
  induction xs with
  | nil => intro i; simp [chunksAux]
  | cons x xs ih =>
    intro i
    cases i with
    | zero =>
      intro c hc
      simp only [chunksAux, List.mem_cons] at hc
      rcases hc with rfl | hc
      · simp
      · exact ih (n - 1) c hc
    | succ j =>
      intro c hc
      simp only [chunksAux] at hc
      exact ih j c hc

theorem ne_nil_of_mem_chunksOf {n : Nat} {l c : List Nat}
    (hc : c ∈ chunksOf n l) : c ≠ [] := by
  cases l with
  | nil => simp [chunksOf] at hc
  | cons x xs =>
    simp only [chunksOf, List.mem_cons] at hc
    rcases hc with rfl | hc
    · simp
    · exact chunksAux_ne_nil n xs (n - 1) c hc

/-! ### Step lemmas about `processChunk` -/

theorem processChunk_nil (o : Nat → EditOutcome) (t : Nat) (s : LoopState) :
    processChunk o t s [] = some s := rfl

/-- Unfolding of `processChunk` on a nonempty chunk, with the `let` bindings
expanded. -/
theorem processChunk_eq (o : Nat → EditOutcome) (t : Nat) (s : LoopState)
    (c : List Nat) (hc : ¬ c.isEmpty) :
    processChunk o t s c =
      if s.lastProgressUpdate + 5 ≤ progressOf (s.downloadedSize + c.length) t
          ∧ progressOf (s.downloadedSize + c.length) t < 100 then
        match o s.editAttempts with
        | .success => some { s with
            fileBytes := s.fileBytes ++ c
            hashedBytes := s.hashedBytes ++ c
            downloadedSize := s.downloadedSize + c.length
            lastProgressUpdate := progressOf (s.downloadedSize + c.length) t
            editAttempts := s.editAttempts + 1
            reports := s.reports ++ [progressOf (s.downloadedSize + c.length) t] }
        | _ => some { s with
            fileBytes := s.fileBytes ++ c
            hashedBytes := s.hashedBytes ++ c
            downloadedSize := s.downloadedSize + c.length
            editAttempts := s.editAttempts + 1 }
      else if progressOf (s.downloadedSize + c.length) t = 100 then
        match o s.editAttempts with
        | .success => some { s with
            fileBytes := s.fileBytes ++ c
            hashedBytes := s.hashedBytes ++ c
            downloadedSize := s.downloadedSize + c.length
            editAttempts := s.editAttempts + 1
            completeEdits := s.completeEdits + 1 }
        | _ => none
      else some { s with
        fileBytes := s.fileBytes ++ c
        hashedBytes := s.hashedBytes ++ c
        downloadedSize := s.downloadedSize + c.length } := by
  rw [processChunk, if_neg hc]

theorem processChunk_bytes {o : Nat → EditOutcome} {t : Nat} {s : LoopState}
    {c : List Nat} {s₁ : LoopState} (h : processChunk o t s c = some s₁) :
    s₁.fileBytes = s.fileBytes ++ c ∧ s₁.hashedBytes = s.hashedBytes ++ c
    ∧ s₁.downloadedSize = s.downloadedSize + c.length := by
  by_cases hc : c.isEmpty
  · have hce : c = [] := List.isEmpty_iff.mp hc
    subst hce
    rw [processChunk_nil] at h
    cases h
    simp
  · rw [processChunk_eq o t s c hc] at h
    cases hedit : o s.editAttempts <;>
      simp only [hedit] at h <;>
      split_ifs at h <;>
      first
        | exact Option.noConfusion h
        | (cases h; exact ⟨rfl, rfl, rfl⟩)

/-- A step whose computed progress is not 100 never performs the
"Download complete!" edit. -/
theorem processChunk_not100 {o : Nat → EditOutcome} {t : Nat} {s : LoopState}
    {c : List Nat} {s₁ : LoopState}
    (hne : progressOf (s.downloadedSize + c.length) t ≠ 100)
    (h : processChunk o t s c = some s₁) :
    s₁.completeEdits = s.completeEdits := by
  by_cases hc : c.isEmpty
  · have hce : c = [] := List.isEmpty_iff.mp hc
    subst hce
    rw [processChunk_nil] at h
    cases h
    rfl
  · rw [processChunk_eq o t s c hc] at h
    cases hedit : o s.editAttempts <;>
      simp only [hedit] at h <;>
      split_ifs at h <;>
      first
        | exact Option.noConfusion h
        | (cases h; rfl)

/-- A step whose computed progress is 100 that returns a state performed
exactly one successful "Download complete!" edit. -/
theorem processChunk_at100 {o : Nat → EditOutcome} {t : Nat} {s : LoopState}
    {c : List Nat} {s₁ : LoopState} (hc : ¬ c.isEmpty)
    (h100 : progressOf (s.downloadedSize + c.length) t = 100)
    (h : processChunk o t s c = some s₁) :
    s₁.completeEdits = s.completeEdits + 1 := by
  rw [processChunk_eq o t s c hc] at h
  cases hedit : o s.editAttempts <;>
    simp only [hedit] at h <;>
    split_ifs at h <;>
    first
      | exact Option.noConfusion h
      | (cases h; rfl)
      | omega

/-- The report invariant is preserved by every step. -/
theorem processChunk_reportInv {o : Nat → EditOutcome} {t : Nat} {s : LoopState}
    {c : List Nat} {s₁ : LoopState} (h : processChunk o t s c = some s₁)
    (inv : ReportInv s) : ReportInv s₁ := by
  by_cases hc : c.isEmpty
  · have hce : c = [] := List.isEmpty_iff.mp hc
    subst hce
    rw [processChunk_nil] at h
    cases h
    exact inv
  · rw [processChunk_eq o t s c hc] at h
    cases hedit : o s.editAttempts <;>
      simp only [hedit] at h <;>
      split_ifs at h <;>
      first
        | exact Option.noConfusion h
        | (cases h; exact inv)
        | (rename_i hcond
           cases h
           obtain ⟨hchain, hlast, hlt⟩ := inv
           refine ⟨?_, ?_, ?_⟩
           · show List.Chain' _ (0 :: (s.reports ++ [_]))
             rw [← List.cons_append]
             refine List.chain'_append.mpr ⟨hchain, List.chain'_singleton _, ?_⟩
             intro x hx y hy
             rw [hlast] at hx
             cases hx
             cases hy
             exact hcond.1
           · show (0 :: (s.reports ++ [_])).getLast? = _
             rw [← List.cons_append, List.getLast?_concat]
           · intro p hp
             rcases List.mem_append.mp hp with hp | hp
             · exact hlt p hp
             · rcases List.mem_singleton.mp hp with rfl
               exact hcond.2)

/-! ### Whole-loop lemmas -/

theorem runLoopFrom_bytes (o : Nat → EditOutcome) (t : Nat) :
    ∀ (chunks : List (List Nat)) (s s' : LoopState),
      List.foldlM (processChunk o t) s chunks = some s' →
      s'.fileBytes = s.fileBytes ++ chunks.flatten
      ∧ s'.hashedBytes = s.hashedBytes ++ chunks.flatten
      ∧ s'.downloadedSize = s.downloadedSize + (chunks.map List.length).sum := by
  intro chunks
  induction chunks with
  | nil =>
    intro s s' h
    simp only [List.foldlM_nil, Option.pure_def, Option.some.injEq] at h
    subst h
    simp
  | cons c cs ih =>
    intro s s' h
    rw [List.foldlM_cons] at h
    rcases hopt : processChunk o t s c with _ | s1 <;> rw [hopt] at h
    · exact Option.noConfusion h
    · simp only [Option.bind_eq_bind, Option.some_bind] at h
      obtain ⟨h1, h2, h3⟩ := processChunk_bytes hopt
      obtain ⟨g1, g2, g3⟩ := ih s1 s' h
      refine ⟨?_, ?_, ?_⟩
      · rw [g1, h1, List.flatten_cons, List.append_assoc]
      · rw [g2, h2, List.flatten_cons, List.append_assoc]
      · rw [g3, h3]
        simp [Nat.add_assoc]

theorem runLoopFrom_reportInv (o : Nat → EditOutcome) (t : Nat) :
    ∀ (chunks : List (List Nat)) (s s' : LoopState),
      List.foldlM (processChunk o t) s chunks = some s' →
      ReportInv s → ReportInv s' := by
  intro chunks
  induction chunks with
  | nil =>
    intro s s' h inv
    simp only [List.foldlM_nil, Option.pure_def, Option.some.injEq] at h
    subst h
    exact inv
  | cons c cs ih =>
    intro s s' h inv
    rw [List.foldlM_cons] at h
    rcases hopt : processChunk o t s c with _ | s1 <;> rw [hopt] at h
    · exact Option.noConfusion h
    · simp only [Option.bind_eq_bind, Option.some_bind] at h
      exact ih s1 s' h (processChunk_reportInv hopt inv)

/-- A run of chunks whose lengths sum to zero (only empty chunks) is entirely
skipped. -/
theorem runLoopFrom_all_nil (o : Nat → EditOutcome) (t : Nat) :
    ∀ (chunks : List (List Nat)) (s : LoopState),
      (chunks.map List.length).sum = 0 →
      List.foldlM (processChunk o t) s chunks = some s := by
  intro chunks
  induction chunks with
  | nil => intro s _; rfl
  | cons c cs ih =>
    intro s hsum
    simp only [List.map_cons, List.sum_cons, Nat.add_eq_zero] at hsum
    have hc : c = [] := List.eq_nil_of_length_eq_zero hsum.1
    subst hc
    rw [List.foldlM_cons, processChunk_nil]
    simp only [Option.bind_eq_bind, Option.some_bind]
    exact ih s hsum.2

theorem progressOf_lt_100 {d t : Nat} (ht : 0 < t) (hd : d < t) :
    progressOf d t < 100 := by
  rw [progressOf, if_pos ht]
  rw [Nat.div_lt_iff_lt_mul ht]
  omega

theorem progressOf_self {t : Nat} (ht : 0 < t) : progressOf t t = 100 := by
  rw [progressOf, if_pos ht]
  exact Nat.mul_div_cancel_left 100 ht

/-- If the run starts strictly below the declared total and the chunk lengths
sum exactly to it, the successful run performs exactly one more
"Download complete!" edit. -/
theorem runLoopFrom_complete (o : Nat → EditOutcome) (t : Nat) (ht : 0 < t) :
    ∀ (chunks : List (List Nat)) (s s' : LoopState),
      List.foldlM (processChunk o t) s chunks = some s' →
      s.downloadedSize + (chunks.map List.length).sum = t →
      s.downloadedSize < t →
      s'.completeEdits = s.completeEdits + 1 := by
  intro chunks
  induction chunks with
  | nil =>
    intro s s' h hsum hlt
    simp only [List.map_nil, List.sum_nil, Nat.add_zero] at hsum
    omega
  | cons c cs ih =>
    intro s s' h hsum hlt
    rw [List.foldlM_cons] at h
    rcases hopt : processChunk o t s c with _ | s1 <;> rw [hopt] at h
    · exact Option.noConfusion h
    · simp only [Option.bind_eq_bind, Option.some_bind] at h
      simp only [List.map_cons, List.sum_cons] at hsum
      obtain ⟨-, -, hdown⟩ := processChunk_bytes hopt
      by_cases hce : c.isEmpty
      · have hcnil : c = [] := List.isEmpty_iff.mp hce
        subst hcnil
        rw [processChunk_nil] at hopt
        have hs1 : s1 = s := (Option.some.inj hopt).symm
        subst hs1
        exact ih _ s' h (by simpa using hsum) hlt
      · have hlen : 0 < c.length := by
          cases c
          · simp at hce
          · simp
        by_cases hreach : s.downloadedSize + c.length = t
        · have h100 : progressOf (s.downloadedSize + c.length) t = 100 := by
            rw [hreach]; exact progressOf_self ht
          have hcs0 : (cs.map List.length).sum = 0 := by omega
          rw [runLoopFrom_all_nil o t cs s1 hcs0] at h
          cases h
          exact processChunk_at100 hce h100 hopt
        · have hlt1 : s.downloadedSize + c.length < t := by omega
          have hne : progressOf (s.downloadedSize + c.length) t ≠ 100 :=
            Nat.ne_of_lt (progressOf_lt_100 ht hlt1)
          have hkeep := processChunk_not100 hne hopt
          have := ih s1 s' h (by omega) (by omega)
          omega

/-- With declared total 0 the progress computation is constantly 0, so no edit
is ever attempted and the loop runs to the end accumulating the bytes. -/
theorem runLoopFrom_zero (o : Nat → EditOutcome) :
    ∀ (chunks : List (List Nat)) (s : LoopState),
      List.foldlM (processChunk o 0) s chunks =
        some { s with
          fileBytes := s.fileBytes ++ chunks.flatten
          hashedBytes := s.hashedBytes ++ chunks.flatten
          downloadedSize := s.downloadedSize + (chunks.map List.length).sum } := by
  intro chunks
  induction chunks with
  | nil => intro s; simp [List.foldlM_nil]
  | cons c cs ih =>
    intro s
    rw [List.foldlM_cons]
    have hstep : processChunk o 0 s c =
        some { s with
          fileBytes := s.fileBytes ++ c
          hashedBytes := s.hashedBytes ++ c
          downloadedSize := s.downloadedSize + c.length } := by
      by_cases hc : c.isEmpty
      · have hcnil : c = [] := List.isEmpty_iff.mp hc
        subst hcnil
        simp [processChunk_nil]
      · rw [processChunk_eq o 0 s c hc]
        have hp : progressOf (s.downloadedSize + c.length) 0 = 0 := by
          simp [progressOf]
        rw [hp]
        rw [if_neg (by omega), if_neg (by omega)]
    rw [hstep]
    simp only [Option.bind_eq_bind, Option.some_bind]
    rw [ih]
    simp [List.append_assoc, Nat.add_assoc]

/-! ### Claim theorems -/

/-- C1: for every completed transfer, the stored key and the finalized file's
name equal the hex SHA-256 digest of exactly the bytes finalized at the
storage path: the body is consumed in chunks of at most 4096 bytes, each
non-empty chunk is both written to the temporary file and fed to the hash
accumulator, and zero-length chunks are skipped without hashing or writing. -/
theorem streaming_hash_roundtrip (oracle : Nat → EditOutcome)
    (contentLength : Option Nat) (body : List Nat)
    (hok : (streamAndFinalize oracle contentLength body).isSome = true) :
    (streamAndFinalize oracle contentLength body).map Finalized.content = some body
    ∧ (streamAndFinalize oracle contentLength body).map Finalized.storedKey
        = some (sha256Hex body)
    ∧ (streamAndFinalize oracle contentLength body).map Finalized.fileName
        = some (sha256Hex body)
    ∧ (streamAndFinalize oracle contentLength body).map (fun f => sha256Hex f.content)
        = (streamAndFinalize oracle contentLength body).map Finalized.storedKey
    ∧ (∀ c ∈ chunksOf 4096 body, c.length ≤ 4096 ∧ c ≠ [])
    ∧ (∀ total s, processChunk oracle total s [] = some s) := by
  rcases hrun : runLoop oracle (totalSizeOf contentLength) (chunksOf 4096 body) with _ | s
  · rw [streamAndFinalize, hrun] at hok
    exact absurd hok (by simp)
  · have hfold : List.foldlM (processChunk oracle (totalSizeOf contentLength)) {}
        (chunksOf 4096 body) = some s := hrun
    obtain ⟨hf, hh, -⟩ := runLoopFrom_bytes oracle (totalSizeOf contentLength)
      (chunksOf 4096 body) {} s hfold
    rw [flatten_chunksOf] at hf hh
    simp only [List.nil_append] at hf hh
    rw [streamAndFinalize, hrun]
    refine ⟨?_, ?_, ?_, ?_, ?_, ?_⟩
    · simp [hf]
    · simp [hh]
    · simp [hh]
    · simp [hf, hh]
    · intro c hc
      exact ⟨length_le_of_mem_chunksOf (by omega) hc, ne_nil_of_mem_chunksOf hc⟩
    · intro total s
      exact processChunk_nil oracle total s

theorem streaming_hash_roundtrip_witness :
    (streamAndFinalize (fun _ => EditOutcome.success) (some 2) [104, 105]).isSome = true
    ∧ ((streamAndFinalize (fun _ => EditOutcome.success) (some 2) [104, 105]).map
          Finalized.content = some [104, 105]
       ∧ (streamAndFinalize (fun _ => EditOutcome.success) (some 2) [104, 105]).map
          Finalized.storedKey = some (sha256Hex [104, 105])
       ∧ (streamAndFinalize (fun _ => EditOutcome.success) (some 2) [104, 105]).map
          Finalized.fileName = some (sha256Hex [104, 105])
       ∧ (streamAndFinalize (fun _ => EditOutcome.success) (some 2) [104, 105]).map
            (fun f => sha256Hex f.content)
          = (streamAndFinalize (fun _ => EditOutcome.success) (some 2) [104, 105]).map
            Finalized.storedKey
       ∧ (∀ c ∈ chunksOf 4096 [104, 105], c.length ≤ 4096 ∧ c ≠ [])
       ∧ (∀ total s, processChunk (fun _ => EditOutcome.success) total s [] = some s)) :=
  ⟨by decide, streaming_hash_roundtrip (fun _ => EditOutcome.success) (some 2) [104, 105]
    (by decide)⟩

/-- C2 counterexample: `add_file_info` is not a no-op when a record for the
hash already exists — a second finalize of byte-identical content inserts a
second document with the same hash. -/
theorem add_file_info_not_idempotent :
    add_file_info "h1" "/d/1/h1" "a.bin" (add_file_info "h1" "/d/1/h1" "a.bin" [])
      ≠ add_file_info "h1" "/d/1/h1" "a.bin" []
    ∧ ((add_file_info "h1" "/d/1/h1" "a.bin" (add_file_info "h1" "/d/1/h1" "a.bin" [])).filter
        (fun r => r.file_hash = "h1")).length = 2 := by
  constructor
  · decide
  · decide

/-- C2 (amended): `add_file_info` unconditionally inserts (`insert_one`), so
recording a StoredFile entry when a record for the hash already exists is not
a no-op: it appends a second document sharing the hash, increasing the count
of records with that hash by one; `find_one` lookups return the first match. -/
theorem add_file_info_always_inserts (db : List FileRecord)
    (h p n : String) :
    add_file_info h p n db
      = db ++ [{ file_hash := h, file_path := p, original_filename := n,
                 thumbnail_path := none }]
    ∧ ((add_file_info h p n db).filter (fun r => r.file_hash = h)).length
        = (db.filter (fun r => r.file_hash = h)).length + 1
    ∧ add_file_info h p n db ≠ db
    ∧ get_file_info_by_hash h (add_file_info h p n db)
        = some ((db.filter (fun r => r.file_hash = h)).headD
            { file_hash := h, file_path := p, original_filename := n,
              thumbnail_path := none }) := by
  refine ⟨rfl, ?_, ?_, ?_⟩
  · simp [add_file_info, List.filter_append]
  · intro heq
    have hlen := congrArg List.length heq
    simp [add_file_info] at hlen
  · rw [add_file_info, get_file_info_by_hash]
    induction db with
    | nil => simp
    | cons r rs ih =>
      by_cases hr : r.file_hash = h
      · simp [List.find?_cons, List.filter_cons, hr]
      · simp only [List.cons_append, List.find?_cons, List.filter_cons]
        simp only [hr]
        simpa [hr] using ih

/-- C3: for a transfer with declared total `T`, a "Downloading: p%" update is
emitted only with `p = floor(downloaded * 100 / T)`, `p ≥ last_reported + 5`
and `p < 100`; the successfully reported percents rise by at least 5 per step
(hence are monotone and below 100), and when the chunk lengths sum exactly to
`T > 0` a completed run performs exactly one "Download complete!" edit; with
`T = 0` the computed percent is always 0, so no percent update and no
complete update is ever emitted. -/
theorem progress_reporting_throttle (oracle : Nat → EditOutcome) (total : Nat)
    (chunks : List (List Nat)) (s : LoopState)
    (hrun : runLoop oracle total chunks = some s) :
    List.Chain' (fun a b => a + 5 ≤ b) (0 :: s.reports)
    ∧ List.Chain' (fun a b => a ≤ b) s.reports
    ∧ (∀ p ∈ s.reports, p < 100)
    ∧ (0 < total → (chunks.map List.length).sum = total → s.completeEdits = 1)
    ∧ (total = 0 → s.reports = [] ∧ s.completeEdits = 0) := by
  have hfold : List.foldlM (processChunk oracle total) {} chunks = some s := hrun
  have inv0 : ReportInv {} := ⟨List.chain'_singleton 0, rfl, by simp⟩
  obtain ⟨hchain, hlast, hlt⟩ := runLoopFrom_reportInv oracle total chunks {} s hfold inv0
  refine ⟨hchain, ?_, hlt, ?_, ?_⟩
  · exact List.Chain'.imp (fun a b hab => by omega) (List.chain'_cons'.mp hchain).2
  · intro ht hsum
    have := runLoopFrom_complete oracle total ht chunks {} s hfold
      (by simpa using hsum) (by simpa using ht)
    simpa using this
  · intro ht
    subst ht
    rw [runLoopFrom_zero oracle chunks {}] at hfold
    cases hfold
    exact ⟨rfl, rfl⟩

theorem progress_reporting_throttle_witness :
    runLoop (fun _ => EditOutcome.success) 2 [[5, 6]]
      = some { fileBytes := [5, 6], hashedBytes := [5, 6], downloadedSize := 2,
               lastProgressUpdate := 0, editAttempts := 1, reports := [],
               completeEdits := 1 }
    ∧ (List.Chain' (fun a b => a + 5 ≤ b) [0]
       ∧ List.Chain' (fun a b => a ≤ b) ([] : List Nat)
       ∧ (∀ p ∈ ([] : List Nat), p < 100)
       ∧ (0 < 2 → (([[5, 6]] : List (List Nat)).map List.length).sum = 2 → (1 : Nat) = 1)
       ∧ ((2 : Nat) = 0 → ([] : List Nat) = [] ∧ (1 : Nat) = 0)) :=
  ⟨by decide, progress_reporting_throttle (fun _ => EditOutcome.success) 2 [[5, 6]]
    { fileBytes := [5, 6], hashedBytes := [5, 6], downloadedSize := 2,
      lastProgressUpdate := 0, editAttempts := 1, reports := [], completeEdits := 1 }
    (by decide)⟩

/-- C4 counterexample: the delivery branch compares the Content-Length-declared
`total_size` (0 when the header is absent), not the finalized file's byte
size: a stream with no Content-Length whose finalized file is exactly 50 MiB
is delivered inline, although the claim requires hosted-link delivery at or
above 50 MiB. -/
theorem delivery_mode_uses_declared_size :
    (runLoop (fun _ => EditOutcome.success) (totalSizeOf none)
        (chunksOf 4096 (List.replicate 52428800 1))).map LoopState.fileBytes
      = some (List.replicate 52428800 1)
    ∧ FILE_SIZE_THRESHOLD ≤ (List.replicate 52428800 1).length
    ∧ deliverFile (totalSizeOf none) (some "https://files.example") "k"
        = DeliveryResult.inlineSent := by
  refine ⟨?_, ?_, ?_⟩
  · have hz := runLoopFrom_zero (fun _ => EditOutcome.success)
      (chunksOf 4096 (List.replicate 52428800 1)) ({} : LoopState)
    rw [runLoop, show totalSizeOf none = 0 from rfl, hz, Option.map_some']
    show some ([] ++ (chunksOf 4096 (List.replicate 52428800 1)).flatten) = _
    rw [List.nil_append, flatten_chunksOf]
  · rw [List.length_replicate]
    show 50 * 1024 * 1024 ≤ 52428800
    omega
  · rfl

/-- C4 (amended): the delivery mode is computed from the declared `total_size`
(the Content-Length header value, 0 when absent) against the fixed 50 MiB
threshold: declared size below the threshold is delivered inline and at or
above it as a hosted link, so the claimed boundary (50 MiB − 1 inline, 50 MiB
hosted) holds whenever the declared size equals the finalized byte size; and
hosted delivery with no configured base URL fails the transfer. -/
theorem delivery_mode_threshold (total_size : Nat) (baseUrl : Option String)
    (k : String) :
    (total_size < FILE_SIZE_THRESHOLD → deliverFile total_size baseUrl k
        = DeliveryResult.inlineSent)
    ∧ (FILE_SIZE_THRESHOLD ≤ total_size → ∀ b, baseUrl = some b →
        deliverFile total_size baseUrl k = DeliveryResult.linkSent
          (b ++ "/download/" ++ k))
    ∧ (FILE_SIZE_THRESHOLD ≤ total_size → baseUrl = none →
        deliverFile total_size baseUrl k = DeliveryResult.failed)
    ∧ deliverFile (FILE_SIZE_THRESHOLD - 1) baseUrl k = DeliveryResult.inlineSent
    ∧ (∀ b, deliverFile FILE_SIZE_THRESHOLD (some b) k
        = DeliveryResult.linkSent (b ++ "/download/" ++ k)) := by
  refine ⟨?_, ?_, ?_, ?_, ?_⟩
  · intro hlt
    simp [deliverFile, hlt]
  · intro hge b hb
    subst hb
    simp [deliverFile, Nat.not_lt.mpr hge]
  · intro hge hb
    subst hb
    simp [deliverFile, Nat.not_lt.mpr hge]
  · simp [deliverFile,
      Nat.sub_lt (by decide : 0 < FILE_SIZE_THRESHOLD) (by decide : (0 : Nat) < 1)]
  · intro b
    simp [deliverFile]

theorem delivery_mode_threshold_witness :
    ((52428799 : Nat) < FILE_SIZE_THRESHOLD
     ∧ deliverFile 52428799 (some "https://files.example") "k"
         = DeliveryResult.inlineSent)
    ∧ (FILE_SIZE_THRESHOLD ≤ (52428800 : Nat)
       ∧ deliverFile 52428800 (some "https://files.example") "k"
           = DeliveryResult.linkSent ("https://files.example" ++ "/download/" ++ "k"))
    ∧ (FILE_SIZE_THRESHOLD ≤ (52428800 : Nat)
       ∧ deliverFile 52428800 none "k" = DeliveryResult.failed) :=
  ⟨⟨by decide,
    (delivery_mode_threshold 52428799 (some "https://files.example") "k").1 (by decide)⟩,
   ⟨by decide,
    (delivery_mode_threshold 52428800 (some "https://files.example") "k").2.1 (by decide)
      "https://files.example" rfl⟩,
   ⟨by decide,
    (delivery_mode_threshold 52428800 none "k").2.2.1 (by decide) rfl⟩⟩

/-- C5: an HTTP-200 JSON body with a `code` field maps through the fixed
table — 404 to "File not found", 500 to "Currently no available premium
account for this filehost", and so on — and every code outside the table
yields exactly "Unknown error (code N)" for the received code N, for example
418. -/
theorem broker_error_code_mapping :
    apiErrorMessage 400 = "Invalid parameters"
    ∧ apiErrorMessage 401 = "Invalid API authentication"
    ∧ apiErrorMessage 402 = "Filehost is not supported"
    ∧ apiErrorMessage 403 = "Not enough traffic"
    ∧ apiErrorMessage 404 = "File not found"
    ∧ apiErrorMessage 429 = "Too many open connections"
    ∧ apiErrorMessage 500 = "Currently no available premium account for this filehost"
    ∧ apiErrorMessage 418 = "Unknown error (code 418)"
    ∧ ∀ code : Int, code ∉ ([400, 401, 402, 403, 404, 429, 500] : List Int) →
        apiErrorMessage code = "Unknown error (code " ++ toString code ++ ")" := by
  refine ⟨by decide, by decide, by decide, by decide, by decide, by decide, by decide,
    by decide, ?_⟩
  intro code hcode
  have h400 : code ≠ 400 := fun h => hcode (by rw [h]; decide)
  have h401 : code ≠ 401 := fun h => hcode (by rw [h]; decide)
  have h402 : code ≠ 402 := fun h => hcode (by rw [h]; decide)
  have h403 : code ≠ 403 := fun h => hcode (by rw [h]; decide)
  have h404 : code ≠ 404 := fun h => hcode (by rw [h]; decide)
  have h429 : code ≠ 429 := fun h => hcode (by rw [h]; decide)
  have h500 : code ≠ 500 := fun h => hcode (by rw [h]; decide)
  rw [apiErrorMessage, error_messages]
  rw [if_neg h400, if_neg h401, if_neg h402, if_neg h403, if_neg h404, if_neg h429,
    if_neg h500]
  rfl

theorem broker_error_code_mapping_witness :
    (418 : Int) ∉ ([400, 401, 402, 403, 404, 429, 500] : List Int)
    ∧ apiErrorMessage 418 = "Unknown error (code " ++ toString (418 : Int) ++ ")" :=
  ⟨by decide, broker_error_code_mapping.2.2.2.2.2.2.2.2 418 (by decide)⟩

/-- C6: a failed thumbnail attempt never raises into the delivery path (the
transfer still reports successful delivery), and a missing duration leaves
`thumbnail_path` absent; but a non-zero subprocess exit is swallowed inside
`create_video_thumbnail_sheet`, so the call site still invokes
`update_file_thumbnail` and the record's `thumbnail_path` is set even though
no sheet file was produced — contradicting the claim that it remains absent. -/
theorem thumbnail_failure_evaluation :
    create_video_thumbnail_sheet { durationPresent := true, subprocessOk := false }
      = Except.ok false
    ∧ thumbnailSidePath { durationPresent := true, subprocessOk := false }
        = { thumbnailSet := true, delivered := true, sheetCreated := false }
    ∧ (∀ c : ThumbCond, (thumbnailSidePath c).delivered = true)
    ∧ thumbnailSidePath { durationPresent := false, subprocessOk := true }
        = { thumbnailSet := false, delivered := true, sheetCreated := false } := by
  refine ⟨rfl, rfl, ?_, rfl⟩
  intro c
  rcases c with ⟨d, k⟩
  cases d <;> rfl

/-- C7 counterexample: a failed status-message edit can abort the pipeline —
when the terminal "Download complete!" edit fails (the target message was
deleted or aged out), the exception escapes the unguarded call and the
transfer fails instead of being finalized. -/
theorem complete_edit_failure_aborts :
    runLoop (fun _ => EditOutcome.notEditable) 2 [[5, 6]] = none
    ∧ streamAndFinalize (fun _ => EditOutcome.notEditable) (some 2) [5, 6] = none := by
  constructor
  · decide
  · decide

/-- C7 (amended): every failure of a throttled "Downloading: p%" edit —
including the "content not modified" rejection — is swallowed and never aborts
the pipeline (the step still succeeds and the stream continues, with
`last_progress_update` unchanged); but the terminal "Download complete!" edit
is unguarded: when the computed percent is 100 and that edit fails, the
exception propagates and the transfer fails. -/
theorem edit_failure_tolerance (oracle : Nat → EditOutcome) (total : Nat)
    (s : LoopState) (chunk : List Nat) :
    (progressOf (s.downloadedSize + chunk.length) total ≠ 100 →
      (processChunk oracle total s chunk).isSome = true)
    ∧ (chunk ≠ [] →
        s.lastProgressUpdate + 5 ≤ progressOf (s.downloadedSize + chunk.length) total →
        progressOf (s.downloadedSize + chunk.length) total < 100 →
        oracle s.editAttempts ≠ EditOutcome.success →
        processChunk oracle total s chunk = some { s with
          fileBytes := s.fileBytes ++ chunk
          hashedBytes := s.hashedBytes ++ chunk
          downloadedSize := s.downloadedSize + chunk.length
          editAttempts := s.editAttempts + 1 })
    ∧ (chunk ≠ [] → progressOf (s.downloadedSize + chunk.length) total = 100 →
        oracle s.editAttempts ≠ EditOutcome.success →
        processChunk oracle total s chunk = none) := by
  refine ⟨?_, ?_, ?_⟩
  · intro hne
    by_cases hc : chunk.isEmpty
    · have hnil : chunk = [] := List.isEmpty_iff.mp hc
      subst hnil
      rw [processChunk_nil]
      rfl
    · rw [processChunk_eq oracle total s chunk hc]
      split_ifs with h1
      · cases oracle s.editAttempts <;> rfl
      · rfl
  · intro hne hcond1 hcond2 hfail
    have hc : ¬ chunk.isEmpty := by simpa [List.isEmpty_iff] using hne
    rw [processChunk_eq oracle total s chunk hc, if_pos ⟨hcond1, hcond2⟩]
    cases hedit : oracle s.editAttempts
    · exact absurd hedit hfail
    · rfl
    · rfl
    · rfl
    · rfl
  · intro hne h100 hfail
    have hc : ¬ chunk.isEmpty := by simpa [List.isEmpty_iff] using hne
    rw [processChunk_eq oracle total s chunk hc, if_neg (by omega), if_pos h100]
    cases hedit : oracle s.editAttempts
    · exact absurd hedit hfail
    · rfl
    · rfl
    · rfl
    · rfl

theorem edit_failure_tolerance_witness :
    ([1, 2] : List Nat) ≠ []
    ∧ (5 : Nat) ≤ progressOf 2 20
    ∧ progressOf 2 20 < 100
    ∧ (fun _ => EditOutcome.notModified) 0 ≠ EditOutcome.success
    ∧ processChunk (fun _ => EditOutcome.notModified) 20 {} [1, 2]
        = some { fileBytes := [1, 2], hashedBytes := [1, 2], downloadedSize := 2,
                 lastProgressUpdate := 0, editAttempts := 1, reports := [],
                 completeEdits := 0 } :=
  ⟨by decide, by decide, by decide, by decide,
   (edit_failure_tolerance (fun _ => EditOutcome.notModified) 20 {} [1, 2]).2.1
     (by decide) (by decide) (by decide) (by decide)⟩

/-- C8 counterexample: filename extraction can fail the transfer: a header
name whose code points all fit in Latin-1 but whose bytes are not valid UTF-8
(a genuine Latin-1 name such as "café") makes
`file_name.encode('latin1').decode('utf-8')` raise `UnicodeDecodeError`, which
the `except UnicodeEncodeError` handler does not catch, so it escapes into the
blanket handler and the transfer fails. -/
theorem filename_redecode_can_fail :
    extractFileName "attachment; filename*=UTF-8''café" "https://x.example/f"
      = "café"
    ∧ latin1EncodeOk (codePoints "café") = true
    ∧ utf8Decode (codePoints "café") = none
    ∧ fileNameStep "attachment; filename*=UTF-8''café" "https://x.example/f"
        = Except.error () := by
  refine ⟨by decide, by decide, by decide, rfl⟩

/-- C8 (amended): the delivered filename is the capture of the
`filename*=UTF-8''` extended parameter when present, otherwise the last path
segment of the source URL; the decoded name is re-decoded as UTF-8 when its
code points all fit in Latin-1 and its bytes form valid UTF-8, and kept as-is
when some code point exceeds 255 (`UnicodeEncodeError` is caught); but when
all code points fit in Latin-1 and the bytes are not valid UTF-8, the uncaught
`UnicodeDecodeError` fails the transfer. -/
theorem filename_extraction (cps out : List Nat) :
    (latin1EncodeOk cps = false → fixFileName cps = Except.ok cps)
    ∧ (latin1EncodeOk cps = true → utf8Decode cps = some out →
        fixFileName cps = Except.ok out)
    ∧ (latin1EncodeOk cps = true → utf8Decode cps = none →
        fixFileName cps = Except.error ())
    ∧ extractFileName "" "https://x.example/files/archive.zip" = "archive.zip"
    ∧ extractFileName "attachment; filename*=UTF-8''movie name.mp4"
        "https://x.example/f" = "movie name.mp4"
    ∧ fileNameStep "" "https://x.example/files/archive.zip"
        = Except.ok (codePoints "archive.zip") := by
  refine ⟨?_, ?_, ?_, by decide, by decide, rfl⟩
  · intro hno
    rw [fixFileName, if_neg (by simp [hno])]
  · intro hyes hdec
    rw [fixFileName, if_pos hyes, hdec]
  · intro hyes hdec
    rw [fixFileName, if_pos hyes, hdec]

theorem filename_extraction_witness :
    latin1EncodeOk [109, 112, 52] = true
    ∧ utf8Decode [109, 112, 52] = some [109, 112, 52]
    ∧ fixFileName [109, 112, 52] = Except.ok [109, 112, 52] :=
  ⟨by decide, by decide,
   (filename_extraction [109, 112, 52] [109, 112, 52]).2.1 (by decide) (by decide)⟩

/-- C9: the composed hosted URL has the claimed shape
`<public_base_url>/download/<hash>`, but it does not resolve through the
repository's own serving endpoint: the FastAPI route requires two path
segments (`/download/{user_id}/{file_name}`), so the composed single-segment
path matches no route, while the finalized file is actually served at
`/download/<requester_id>/<hash>` from `<download_root>/<requester_id>/<hash>`. -/
theorem hosted_url_does_not_resolve :
    composedHostedUrlPath "deadbeef" = "/download/deadbeef"
    ∧ routeMatch (composedHostedUrlPath "deadbeef") = none
    ∧ routeMatch "/download/7/deadbeef" = some ("7", "deadbeef")
    ∧ servedFilePath "/data/downloads" "7" "deadbeef"
        = finalizedFilePath "/data/downloads" 7 "deadbeef" := by
  refine ⟨by decide, by decide, by decide, by decide⟩

/-- C10: the `handle_message` invocation of the pipeline is not well-formed:
`bot.py` imports `create_video_thumbnail_sheet_async`, which the premium
module does not define (an `ImportError` at module load), and passes 8
positional arguments to `download_file_from_premium_to`, whose signature
declares 7 parameters (a `TypeError` at the call). -/
theorem handle_message_call_ill_formed :
    "create_video_thumbnail_sheet_async" ∈ botImportsFromPremium
    ∧ "create_video_thumbnail_sheet_async" ∉ premiumModuleNames
    ∧ "download_file_from_premium_to" ∈ premiumModuleNames
    ∧ handleMessageCallArgCount ≠ downloadFnParamCount := by
  refine ⟨by decide, by decide, by decide, by decide⟩

end PremiumBot